import Mathlib

/-!
Shallow embedding of the Go repository `remoteSystemStatsMonitor`.

Embedded source (stats/remoteStats.go, stats monitor file):
* `getMemoryStats`: scans `/proc/meminfo` lines, recognising `MemTotal:`
  and `MemAvailable:`, and derives megabyte figures.
* `getCPUStats`: the inner `snapshot` closure parsing the leading `cpu`
  block of `/proc/stat` into a map, and the per-core delta loop over the
  first sample's map.
* `GetSystemStats`: composition of the two sub-steps.
* `remoteStatsCollector` ownership fields, its constructors and `Close`.
* The monitor's `StartSync` scheduler loop, as a function over the
  sequence of `select` outcomes.

Modelling conventions: a remote resource is the list of text lines the
scanner delivers; SSH/SFTP handles are opaque numerals; Go `float64`
arithmetic is modelled by `ℚ` (all quantities involved are produced by
field operations on parsed decimal literals); `strconv.ParseFloat` is
modelled on plain decimal literals (optional sign, digit run, optional
fraction), the token shapes the claims exercise.  Go map iteration order
is unspecified, so the per-core loop receives the iteration order as an
explicit parameter, constrained in theorems to be a permutation of the
map's keys.  A Go runtime panic (out-of-range indexing) is a distinct
outcome from an error return.
-/

namespace RemoteStats

/-- Auxiliary for whitespace splitting; `acc` is the current field, reversed. -/
def splitWSAux : List Char → List Char → List (List Char)
  | [], acc => if acc.isEmpty then [] else [acc.reverse]
  | c :: cs, acc =>
    if c.isWhitespace then
      if acc.isEmpty then splitWSAux cs [] else acc.reverse :: splitWSAux cs []
    else splitWSAux cs (c :: acc)

/-- Model of Go `strings.Fields`: split on whitespace, no empty fields. -/
def goFields (s : String) : List String :=
  (splitWSAux s.toList []).map (fun cs => String.mk cs)

/-- Leading-segment test on character lists. -/
def listLeads : List Char → List Char → Bool
  | [], _ => true
  | _ :: _, [] => false
  | a :: as, b :: bs => a = b && listLeads as bs

/-- Model of Go `strings.HasPrefix s pat`: `pat` is a leading segment of `s`. -/
def strStarts (s pat : String) : Bool :=
  listLeads pat.toList s.toList

/-- Numeric value of a digit run. -/
def digitsVal (cs : List Char) : Nat :=
  cs.foldl (fun a c => a * 10 + (c.toNat - 48)) 0

/-- Model of Go `strconv.ParseFloat` on plain decimal literals: optional
sign, a digit run, optionally a dot and a fractional digit run; at least
one digit overall.  Other `ParseFloat` spellings (exponents, hex, inf)
do not occur in the token classes the claims are about. -/
def parseFloatQ (s : String) : Option ℚ :=
  let signAndRest : ℚ × List Char :=
    match s.toList with
    | '-' :: rest => (-1, rest)
    | '+' :: rest => (1, rest)
    | cs => (1, cs)
  let sign := signAndRest.1
  let cs := signAndRest.2
  let intPart := cs.takeWhile Char.isDigit
  let rest := cs.dropWhile Char.isDigit
  match rest with
  | [] => if intPart.isEmpty then none else some (sign * (digitsVal intPart : ℚ))
  | '.' :: frac =>
    if frac.all Char.isDigit && !(intPart.isEmpty && frac.isEmpty) then
      some (sign * ((digitsVal intPart : ℚ) + (digitsVal frac : ℚ) / ((10 : ℚ) ^ frac.length)))
    else none
  | _ => none

/-- Error of the memory sub-step (`invalid meminfo (MemTotal is zero)`). -/
inductive MemErr
  | invalidMeminfo
  deriving DecidableEq, Repr

/-- One scanner iteration of `getMemoryStats`: fields of the line; lines with
fewer than 2 fields are skipped; the second field is parsed (parse failure
skips the line); the `switch` on the first field assigns `total` or
`available`.  State is `(total, available)`. -/
def memStep (acc : ℚ × ℚ) (line : String) : ℚ × ℚ :=
  let fs := goFields line
  if fs.length < 2 then acc
  else
    match parseFloatQ (fs.getD 1 "") with
    | none => acc
    | some v =>
      if fs.getD 0 "" = "MemTotal:" then (v, acc.2)
      else if fs.getD 0 "" = "MemAvailable:" then (acc.1, v)
      else acc

/-- The scan of `getMemoryStats` over all lines, starting from `(0, 0)`
(Go zero values of `total`, `available`). -/
def memExtract (lines : List String) : ℚ × ℚ :=
  lines.foldl memStep (0, 0)

/-- Go `getMemoryStats`: scan, fail when `total == 0`, else convert to MB. -/
def getMemoryStats (lines : List String) : Except MemErr (ℚ × ℚ) :=
  let st := memExtract lines
  if st.1 = 0 then .error .invalidMeminfo
  else .ok (st.1 / 1024, (st.1 - st.2) / 1024)

/-- A raw counter sample: Go `map[string][]float64`, as an association list
with unique keys (later `stats[core] = values` overwrites in place). -/
abbrev StatMap := List (String × List ℚ)

/-- Lookup in the map model. -/
def mapLookup (m : StatMap) (k : String) : Option (List ℚ) :=
  (m.find? (fun p => p.1 = k)).map (fun p => p.2)

/-- Go map assignment `m[k] = v`: overwrite when present, else add. -/
def mapInsert (m : StatMap) (k : String) (v : List ℚ) : StatMap :=
  if m.any (fun p => p.1 = k) then
    m.map (fun p => if p.1 = k then (k, v) else p)
  else m ++ [(k, v)]

/-- Key set of the map model. -/
def mapKeys (m : StatMap) : List String :=
  m.map (fun p => p.1)

/-- Parse the counter tokens of one cpu line; Go returns at the first
non-numeric token, so the result is `none` when any token fails. -/
def parseCounters : List String → Option (List ℚ)
  | [] => some []
  | t :: ts =>
    match parseFloatQ t, parseCounters ts with
    | some v, some vs => some (v :: vs)
    | _, _ => none

/-- The scanner loop of the `snapshot` closure in `getCPUStats`: accumulate
cpu-led lines into the map, `break` at the first line not led by `cpu`,
error out on the first non-numeric counter token. -/
def snapshotGo (acc : StatMap) : List String → Except Unit StatMap
  | [] => .ok acc
  | line :: rest =>
    if strStarts line "cpu" then
      let fs := goFields line
      match parseCounters (fs.drop 1) with
      | none => .error ()
      | some vals => snapshotGo (mapInsert acc (fs.getD 0 "") vals) rest
    else .ok acc

/-- Outcome of the per-core body of the delta loop in `getCPUStats`. -/
inductive CoreOutcome
  | panicked
  | skipped
  | usage (u : ℚ)
  deriving DecidableEq, Repr

/-- Body of the delta loop for one core present in both samples, Go order of
events: the summing loop indexes `values2[i]` for every `i` below
`len(values1)` and panics when `values2` is shorter; then cores with fewer
than 4 first-sample counters are skipped; then a zero total delta is
skipped; otherwise the usage percentage is produced.  `total2` sums only
the first `len(values1)` entries of `values2`, as the Go loop does. -/
def coreResult (v1 v2 : List ℚ) : CoreOutcome :=
  if v2.length < v1.length then .panicked
  else if v1.length ≤ 3 then .skipped
  else
    let total1 := v1.sum
    let total2 := (v2.take v1.length).sum
    let idle1 := v1.getD 3 0
    let idle2 := v2.getD 3 0
    let deltaIdle := idle2 - idle1
    let deltaTotal := total2 - total1
    if deltaTotal = 0 then .skipped
    else .usage ((1 - deltaIdle / deltaTotal) * 100)

/-- One entry of `perCoreCPU` (Go `CPUStat`). -/
structure CPUStat where
  Core : String
  UsagePct : ℚ
  deriving DecidableEq, Repr

/-- The delta loop of `getCPUStats` over the first sample's map, visiting
keys in iteration order `order`; `tu` is `totalUsage` (zero-initialised,
overwritten by the aggregate `cpu` row), `acc` is `perCore` (appended).
`none` models a runtime panic escaping the loop. -/
def processCores (s1 s2 : StatMap) : ℚ → List CPUStat → List String → Option (ℚ × List CPUStat)
  | tu, acc, [] => some (tu, acc)
  | tu, acc, c :: rest =>
    match mapLookup s1 c, mapLookup s2 c with
    | some v1, some v2 =>
      match coreResult v1 v2 with
      | .panicked => none
      | .skipped => processCores s1 s2 tu acc rest
      | .usage u =>
        if c = "cpu" then processCores s1 s2 u acc rest
        else processCores s1 s2 tu (acc ++ [⟨c, u⟩]) rest
    | _, _ => processCores s1 s2 tu acc rest

/-- Result of `getCPUStats`: success, a counter-parse error, or a panic. -/
inductive CPUResult
  | ok (totalUsage : ℚ) (perCore : List CPUStat)
  | parseError
  | panicked
  deriving DecidableEq, Repr

/-- Go `getCPUStats`: two snapshots (the inter-sample sleep has no effect on
the computed value), then the delta loop over the first map's keys in
iteration order `order`. -/
def getCPUStats (order : List String) (f1 f2 : List String) : CPUResult :=
  match snapshotGo [] f1 with
  | .error _ => .parseError
  | .ok s1 =>
    match snapshotGo [] f2 with
    | .error _ => .parseError
    | .ok s2 =>
      match processCores s1 s2 0 [] order with
      | none => .panicked
      | some (tu, pc) => .ok tu pc

/-- Go `SystemStats` as returned by `GetSystemStats`. -/
structure SystemStats where
  TotalMemoryMB : ℚ
  UsedMemoryMB : ℚ
  UsedMemoryPercent : ℚ
  TotalCPUPercentage : ℚ
  CPUStats : List CPUStat
  deriving DecidableEq, Repr

/-- Wrapped error of `GetSystemStats`: which sub-step failed. -/
inductive CollectErr
  | memoryStats (e : MemErr)
  | cpuStats
  deriving DecidableEq, Repr

/-- Result of one collection: a snapshot, a wrapped error, or a panic. -/
inductive CollectResult
  | ok (stats : SystemStats)
  | err (e : CollectErr)
  | panicked
  deriving DecidableEq, Repr

/-- Go `GetSystemStats`: memory sub-step first (its failure aborts, wrapped),
then the CPU sub-step (failure aborts, wrapped), then the snapshot with
`UsedMemoryPercent` recomputed from the two memory figures. -/
def GetSystemStats (order : List String) (memLines f1 f2 : List String) : CollectResult :=
  match getMemoryStats memLines with
  | .error e => .err (.memoryStats e)
  | .ok mu =>
    match getCPUStats order f1 f2 with
    | .parseError => .err .cpuStats
    | .panicked => .panicked
    | .ok totalCPU coreStats =>
      .ok ⟨mu.1, mu.2, mu.2 / mu.1 * 100, totalCPU, coreStats⟩

/-- Ownership-relevant state of Go `remoteStatsCollector`: the two client
fields (opaque handles, `none` = Go `nil`) and the two ownership flags. -/
structure remoteStatsCollector where
  sftpClient : Option Nat
  sshClient : Option Nat
  ownsSftpClient : Bool
  ownsSSHClient : Bool
  deriving DecidableEq, Repr

/-- Go `NewRemoteStatsCollectorFromSFTP`: stores the caller's SFTP client,
leaves `sshClient` nil and both ownership flags false. -/
def NewRemoteStatsCollectorFromSFTP (sftpClient : Nat) : remoteStatsCollector :=
  ⟨some sftpClient, none, false, false⟩

/-- Go `NewRemoteStatsCollectorFromSSH` on the success path: `sftp.NewClient`
produced `sftpCreated`, and the result is exactly
`NewRemoteStatsCollectorFromSFTP sftpCreated` — the SSH client is not
stored and no ownership flag is set.  `sshClient` is the dialed handle,
unused exactly as in the source. -/
def NewRemoteStatsCollectorFromSSH (sshClient sftpCreated : Nat) : remoteStatsCollector :=
  NewRemoteStatsCollectorFromSFTP sftpCreated

/-- Go `NewRemoteStatsCollectorFromSSHConfig` on the success path:
`ssh.Dial` produced `sshDialed`, the collector is built through
`NewRemoteStatsCollectorFromSSH`, then `collector.ownsSSHClient = true`. -/
def NewRemoteStatsCollectorFromSSHConfig (sshDialed sftpCreated : Nat) : remoteStatsCollector :=
  let c := NewRemoteStatsCollectorFromSSH sshDialed sftpCreated
  ⟨c.sftpClient, c.sshClient, c.ownsSftpClient, true⟩

/-- Go `remoteStatsCollector.Close`: the list of client handles actually
closed — the SFTP client when owned and non-nil, then the SSH client when
owned and non-nil. -/
def Close (r : remoteStatsCollector) : List Nat :=
  (match r.ownsSftpClient, r.sftpClient with
   | true, some c => [c]
   | _, _ => []) ++
  (match r.ownsSSHClient, r.sshClient with
   | true, some c => [c]
   | _, _ => [])

/-- One wake-up of the `select` in the monitor's `StartSync` loop: either the
context is done, or the ticker fired and the collect+format+log cycle
either succeeded or failed (`cycleFails`). -/
inductive LoopEvent
  | ctxDone
  | tick (cycleFails : Bool)
  deriving DecidableEq, Repr

/-- Status of the `StartSync` loop after consuming a sequence of events:
still waiting, or returned (`withError` records a non-nil error return). -/
inductive LoopStatus
  | running
  | exited (withError : Bool)
  deriving DecidableEq, Repr

/-- The `for { select ... } }` loop of `StartSync`: `ctx.Done()` returns nil;
a ticker fire runs one cycle, prints the error if any, and loops. -/
def StartSyncLoop : List LoopEvent → LoopStatus
  | [] => .running
  | .ctxDone :: _ => .exited false
  | .tick _ :: rest => StartSyncLoop rest

/-- `StartSync` itself: the initial collect+format+log cycle has its error
printed and discarded, then the loop runs. -/
def StartSync (initialCycleFails : Bool) (evs : List LoopEvent) : LoopStatus :=
  StartSyncLoop evs

/-- Derived characterisation: what the delta-loop body contributes for key
`c` to `perCore` — `some` entry exactly when both lookups succeed, the
body computes a usage, and `c` is not the aggregate id. -/
def coreEntry (s1 s2 : StatMap) (c : String) : Option CPUStat :=
  match mapLookup s1 c, mapLookup s2 c with
  | some v1, some v2 =>
    match coreResult v1 v2 with
    | .usage u => if c = "cpu" then none else some ⟨c, u⟩
    | _ => none
  | _, _ => none

/-- Derived characterisation: whether the delta-loop body panics at key `c`. -/
def corePanics (s1 s2 : StatMap) (c : String) : Bool :=
  match mapLookup s1 c, mapLookup s2 c with
  | some v1, some v2 => coreResult v1 v2 = .panicked
  | _, _ => false

/-- Derived characterisation: the final `totalUsage` after folding the
delta-loop body over the visited keys, starting from `tu0`. -/
def aggOf (s1 s2 : StatMap) (tu0 : ℚ) : List String → ℚ
  | [] => tu0
  | c :: rest =>
    match mapLookup s1 c, mapLookup s2 c with
    | some v1, some v2 =>
      match coreResult v1 v2 with
      | .usage u => aggOf s1 s2 (if c = "cpu" then u else tu0) rest
      | _ => aggOf s1 s2 tu0 rest
    | _, _ => aggOf s1 s2 tu0 rest

/-- The value a `getMemoryStats` scanner line writes for `key` (`MemTotal:`
or `MemAvailable:`): `some v` when the line has at least two fields, the
second field parses, and the first field is `key`. -/
def setsKeyVal (key line : String) : Option ℚ :=
  let fs := goFields line
  if fs.length < 2 then none
  else
    match parseFloatQ (fs.getD 1 "") with
    | none => none
    | some v => if fs.getD 0 "" = key then some v else none

lemma memStep_eq (acc : ℚ × ℚ) (line : String) :
    memStep acc line =
      match setsKeyVal "MemTotal:" line with
      | some v => (v, acc.2)
      | none =>
        match setsKeyVal "MemAvailable:" line with
        | some v => (acc.1, v)
        | none => acc := by
  simp only [memStep, setsKeyVal]
  by_cases h1 : (goFields line).length < 2
  · rw [if_pos h1, if_pos h1, if_pos h1]
  · rw [if_neg h1, if_neg h1, if_neg h1]
    cases h2 : parseFloatQ ((goFields line).getD 1 "") with
    | none => rfl
    | some v =>
      dsimp only
      by_cases h3 : (goFields line).getD 0 "" = "MemTotal:"
      · rw [if_pos h3, if_pos h3]
      · rw [if_neg h3, if_neg h3]
        by_cases h4 : (goFields line).getD 0 "" = "MemAvailable:"
        · rw [if_pos h4, if_pos h4]
        · rw [if_neg h4, if_neg h4]

lemma fold_fst_preserved (ls : List String)
    (h : ∀ l ∈ ls, setsKeyVal "MemTotal:" l = none) (acc : ℚ × ℚ) :
    (ls.foldl memStep acc).1 = acc.1 := by
  induction ls generalizing acc with
  | nil => rfl
  | cons x xs ih =>
    rw [List.foldl_cons]
    have hx := h x (List.mem_cons_self x xs)
    have hrest : ∀ l ∈ xs, setsKeyVal "MemTotal:" l = none :=
      fun l hl => h l (List.mem_cons_of_mem x hl)
    rw [ih hrest]
    rw [memStep_eq, hx]
    cases ha : setsKeyVal "MemAvailable:" x <;> simp

lemma fold_snd_preserved (ls : List String)
    (h : ∀ l ∈ ls, setsKeyVal "MemAvailable:" l = none) (acc : ℚ × ℚ) :
    (ls.foldl memStep acc).2 = acc.2 := by
  induction ls generalizing acc with
  | nil => rfl
  | cons x xs ih =>
    rw [List.foldl_cons]
    have hx := h x (List.mem_cons_self x xs)
    have hrest : ∀ l ∈ xs, setsKeyVal "MemAvailable:" l = none :=
      fun l hl => h l (List.mem_cons_of_mem x hl)
    rw [ih hrest]
    rw [memStep_eq, hx]
    cases ht : setsKeyVal "MemTotal:" x <;> simp

lemma fold_fst_zero (ls : List String)
    (h : ∀ l ∈ ls, setsKeyVal "MemTotal:" l = none ∨ setsKeyVal "MemTotal:" l = some 0)
    (acc : ℚ × ℚ) (hacc : acc.1 = 0) :
    (ls.foldl memStep acc).1 = 0 := by
  induction ls generalizing acc with
  | nil => exact hacc
  | cons x xs ih =>
    rw [List.foldl_cons]
    have hrest : ∀ l ∈ xs, _ := fun l hl => h l (List.mem_cons_of_mem x hl)
    refine ih hrest _ ?_
    rw [memStep_eq]
    rcases h x (List.mem_cons_self x xs) with hx | hx
    · rw [hx]
      cases ha : setsKeyVal "MemAvailable:" x <;> simp [hacc]
    · rw [hx]

lemma setsKeyVal_total_avail (l : String) (w v : ℚ)
    (h1 : setsKeyVal "MemTotal:" l = some w)
    (h2 : setsKeyVal "MemAvailable:" l = some v) : False := by
  unfold setsKeyVal at h1 h2
  by_cases hlen : (goFields l).length < 2
  · rw [if_pos hlen] at h1
    exact absurd h1 (by simp)
  · rw [if_neg hlen] at h1 h2
    cases hp : parseFloatQ ((goFields l).getD 1 "") with
    | none =>
      rw [hp] at h1
      exact absurd h1 (by simp)
    | some u =>
      rw [hp] at h1 h2
      dsimp only at h1 h2
      by_cases hk : (goFields l).getD 0 "" = "MemTotal:"
      · rw [if_neg (by rw [hk]; decide)] at h2
        exact absurd h2 (by simp)
      · rw [if_neg hk] at h1
        exact absurd h1 (by simp)

/-- C3 (amended): when the memory resource contains several `MemTotal:` or
`MemAvailable:` lines, the LAST line whose value parses determines the
value used for that key in the run (last parseable occurrence wins, not
the first); a line that writes neither key — unrecognised key, fewer than
two fields, or unparseable value — leaves the scanner state unchanged and
raises no error. -/
theorem mem_last_parseable_occurrence_wins (ls1 ls2 : List String) (l : String) (v : ℚ) :
    ((setsKeyVal "MemTotal:" l = some v ∧ ∀ l2 ∈ ls2, setsKeyVal "MemTotal:" l2 = none) →
      (memExtract (ls1 ++ l :: ls2)).1 = v)
    ∧ ((setsKeyVal "MemAvailable:" l = some v ∧ ∀ l2 ∈ ls2, setsKeyVal "MemAvailable:" l2 = none) →
      (memExtract (ls1 ++ l :: ls2)).2 = v)
    ∧ (∀ acc : ℚ × ℚ, setsKeyVal "MemTotal:" l = none → setsKeyVal "MemAvailable:" l = none →
      memStep acc l = acc) := by
  refine ⟨?_, ?_, ?_⟩
  · rintro ⟨hl, h2⟩
    unfold memExtract
    rw [List.foldl_append, List.foldl_cons, fold_fst_preserved ls2 h2, memStep_eq, hl]
  · rintro ⟨hl, h2⟩
    unfold memExtract
    rw [List.foldl_append, List.foldl_cons, fold_snd_preserved ls2 h2, memStep_eq]
    cases ht : setsKeyVal "MemTotal:" l with
    | none => rw [hl]
    | some w => exact (setsKeyVal_total_avail l w v ht hl).elim
  · intro acc h1 h2
    rw [memStep_eq, h1, h2]

/-- C3 counterexample: with two `MemTotal:` lines (100 then 200) the run
uses the second one: `totalMB = 200/1024 = 25/128`, while the claimed
first-occurrence value 100 would give `100/1024`. -/
theorem mem_first_occurrence_refuted :
    getMemoryStats ["MemTotal: 100", "MemTotal: 200"] = .ok (25/128, 25/128)
    ∧ (25/128 : ℚ) ≠ 100 / 1024 := by
  constructor
  · with_unfolding_all rfl
  · with_unfolding_all decide

/-- Witness for the amended C3 theorem at a concrete resource. -/
theorem mem_last_parseable_occurrence_wins_witness :
    (memExtract ["MemTotal: 100", "MemTotal: 200", "Foo: 3"]).1 = 200 :=
  (mem_last_parseable_occurrence_wins ["MemTotal: 100"] ["Foo: 3"] "MemTotal: 200" 200).1
    ⟨by with_unfolding_all decide, by with_unfolding_all decide⟩

/-- C5: for any memory resource whose scan yields MemTotal `t > 0` and
MemAvailable `a`, the memory sub-step succeeds with `totalMB = t/1024`
and `usedMB = (t-a)/1024`, and whenever the CPU sub-step also succeeds
the snapshot carries `usedMemoryPercent = usedMB / totalMB * 100`;
concretely `MemTotal: 8000000` with `MemAvailable: 4000000` yields
`totalMemoryMB = 7812.5`, `usedMemoryMB = 3906.25`, percent `50`. -/
theorem memory_conversion_and_percent :
    (∀ lines t a, memExtract lines = (t, a) → 0 < t →
      getMemoryStats lines = .ok (t / 1024, (t - a) / 1024))
    ∧ (∀ lines t a order f1 f2 tu pc, memExtract lines = (t, a) → 0 < t →
        getCPUStats order f1 f2 = .ok tu pc →
        GetSystemStats order lines f1 f2 =
          .ok ⟨t / 1024, (t - a) / 1024, ((t - a) / 1024) / (t / 1024) * 100, tu, pc⟩)
    ∧ GetSystemStats ["cpu"] ["MemTotal: 8000000", "MemAvailable: 4000000"]
        ["cpu 1 1 1 1"] ["cpu 1 1 1 1"] = .ok ⟨15625/2, 15625/4, 50, 0, []⟩ := by
  have hmem : ∀ lines t a, memExtract lines = (t, a) → 0 < t →
      getMemoryStats lines = .ok (t / 1024, (t - a) / 1024) := by
    intro lines t a hex ht
    unfold getMemoryStats
    rw [hex, if_neg (show ¬((t, a).1 = 0) from ht.ne')]
  refine ⟨hmem, ?_, ?_⟩
  · intro lines t a order f1 f2 tu pc hex ht hcpu
    unfold GetSystemStats
    rw [hmem lines t a hex ht, hcpu]
  · with_unfolding_all rfl

/-- Witness for the C5 theorem at a concrete resource. -/
theorem memory_conversion_and_percent_witness :
    GetSystemStats ["cpu"] ["MemTotal: 2048", "MemAvailable: 1024"]
        ["cpu 1 1 1 1"] ["cpu 1 1 1 1"] =
      .ok ⟨2048 / 1024, (2048 - 1024) / 1024,
           ((2048 - 1024) / 1024) / (2048 / 1024) * 100, 0, []⟩ :=
  memory_conversion_and_percent.2.1 ["MemTotal: 2048", "MemAvailable: 1024"] 2048 1024
    ["cpu"] ["cpu 1 1 1 1"] ["cpu 1 1 1 1"] 0 []
    (by with_unfolding_all rfl) (by norm_num) (by with_unfolding_all rfl)

/-- C8: if no line of the memory resource writes a nonzero `MemTotal:`
value (key absent, value unparseable, or value zero), the memory sub-step
fails with the invalid-meminfo error, and the whole collection returns
the wrapped memory error — no snapshot. -/
theorem memtotal_absent_or_zero_fails (lines : List String)
    (h : ∀ l ∈ lines, setsKeyVal "MemTotal:" l = none ∨ setsKeyVal "MemTotal:" l = some 0) :
    getMemoryStats lines = .error .invalidMeminfo
    ∧ ∀ order f1 f2, GetSystemStats order lines f1 f2 = .err (.memoryStats .invalidMeminfo) := by
  have h0 : (memExtract lines).1 = 0 := fold_fst_zero lines h (0, 0) rfl
  have hm : getMemoryStats lines = .error .invalidMeminfo := by
    unfold getMemoryStats
    rw [if_pos h0]
  exact ⟨hm, fun order f1 f2 => by unfold GetSystemStats; rw [hm]⟩

/-- Witness for the C8 theorem: no `MemTotal:` line at all. -/
theorem memtotal_absent_or_zero_fails_witness :
    GetSystemStats ["cpu"] ["MemAvailable: 5"] ["cpu 1 1 1 1"] ["cpu 1 1 1 1"]
      = .err (.memoryStats .invalidMeminfo) :=
  (memtotal_absent_or_zero_fails ["MemAvailable: 5"] (by with_unfolding_all decide)).2
    ["cpu"] ["cpu 1 1 1 1"] ["cpu 1 1 1 1"]

/-- C10: a memory resource with a positive `MemTotal:` and no line writing
`MemAvailable:` does not fail: available keeps its zero value, so
`usedMemoryMB = totalMemoryMB` and the returned snapshot's
`usedMemoryPercent` is 100. -/
theorem memavailable_missing_defaults_zero (lines : List String) (t : ℚ)
    (h1 : ∀ l ∈ lines, setsKeyVal "MemAvailable:" l = none)
    (h2 : (memExtract lines).1 = t) (h3 : 0 < t) :
    getMemoryStats lines = .ok (t / 1024, t / 1024)
    ∧ ∀ order f1 f2 tu pc, getCPUStats order f1 f2 = .ok tu pc →
        ∃ st, GetSystemStats order lines f1 f2 = .ok st ∧
          st.UsedMemoryPercent = 100 ∧ st.UsedMemoryMB = st.TotalMemoryMB := by
  have hav : (memExtract lines).2 = 0 := fold_snd_preserved lines h1 (0, 0)
  have hm : getMemoryStats lines = .ok (t / 1024, t / 1024) := by
    unfold getMemoryStats
    rw [if_neg (by rw [h2]; exact h3.ne')]
    rw [h2, hav, sub_zero]
  refine ⟨hm, ?_⟩
  intro order f1 f2 tu pc hcpu
  refine ⟨⟨t / 1024, t / 1024, (t / 1024) / (t / 1024) * 100, tu, pc⟩, ?_, ?_, rfl⟩
  · unfold GetSystemStats
    rw [hm, hcpu]
  · dsimp only
    rw [div_self (by positivity)]
    norm_num

/-- Witness for the C10 theorem at a concrete resource. -/
theorem memavailable_missing_defaults_zero_witness :
    getMemoryStats ["MemTotal: 1024"] = .ok (1024 / 1024, 1024 / 1024)
    ∧ ∃ st, GetSystemStats ["cpu"] ["MemTotal: 1024"] ["cpu 1 1 1 1"] ["cpu 1 1 1 1"] = .ok st
        ∧ st.UsedMemoryPercent = 100 ∧ st.UsedMemoryMB = st.TotalMemoryMB := by
  have h := memavailable_missing_defaults_zero ["MemTotal: 1024"] 1024
    (by with_unfolding_all decide) (by with_unfolding_all rfl) (by norm_num)
  exact ⟨h.1, h.2 ["cpu"] ["cpu 1 1 1 1"] ["cpu 1 1 1 1"] 0 [] (by with_unfolding_all rfl)⟩

lemma mapLookup_cons (p : String × List ℚ) (rest : StatMap) (c : String) :
    mapLookup (p :: rest) c = if p.1 = c then some p.2 else mapLookup rest c := by
  unfold mapLookup
  by_cases h : p.1 = c
  · rw [List.find?_cons_of_pos _ (by simpa using h), if_pos h]
    rfl
  · rw [List.find?_cons_of_neg _ (by simpa using h), if_neg h]

lemma mem_keys_iff_lookup (m : StatMap) (c : String) :
    c ∈ mapKeys m ↔ ∃ v, mapLookup m c = some v := by
  induction m with
  | nil => simp [mapKeys, mapLookup]
  | cons p rest ih =>
    rw [mapLookup_cons]
    by_cases h : p.1 = c
    · simp [mapKeys, h]
    · simp only [mapKeys, List.map_cons, List.mem_cons, if_neg h]
      rw [← mapKeys]
      constructor
      · rintro (rfl | hm)
        · exact absurd rfl h
        · exact ih.mp hm
      · intro hv
        exact Or.inr (ih.mpr hv)

lemma processCores_cons (s1 s2 : StatMap) (tu : ℚ) (acc : List CPUStat)
    (c : String) (rest : List String) :
    processCores s1 s2 tu acc (c :: rest) =
      match mapLookup s1 c, mapLookup s2 c with
      | some v1, some v2 =>
        match coreResult v1 v2 with
        | .panicked => none
        | .skipped => processCores s1 s2 tu acc rest
        | .usage u =>
          if c = "cpu" then processCores s1 s2 u acc rest
          else processCores s1 s2 tu (acc ++ [⟨c, u⟩]) rest
      | _, _ => processCores s1 s2 tu acc rest := rfl

lemma aggOf_cons (s1 s2 : StatMap) (tu : ℚ) (c : String) (rest : List String) :
    aggOf s1 s2 tu (c :: rest) =
      match mapLookup s1 c, mapLookup s2 c with
      | some v1, some v2 =>
        match coreResult v1 v2 with
        | .usage u => aggOf s1 s2 (if c = "cpu" then u else tu) rest
        | _ => aggOf s1 s2 tu rest
      | _, _ => aggOf s1 s2 tu rest := rfl

lemma snapshotGo_cons (acc : StatMap) (line : String) (rest : List String) :
    snapshotGo acc (line :: rest) =
      if strStarts line "cpu" then
        match parseCounters ((goFields line).drop 1) with
        | none => .error ()
        | some vals => snapshotGo (mapInsert acc ((goFields line).getD 0 "") vals) rest
      else .ok acc := rfl

lemma coreEntry_inv (s1 s2 : StatMap) (x : String) (e : CPUStat)
    (h : coreEntry s1 s2 x = some e) :
    e.Core = x ∧ x ≠ "cpu" ∧ ∃ v1 v2, mapLookup s1 x = some v1 ∧ mapLookup s2 x = some v2 ∧
      coreResult v1 v2 = .usage e.UsagePct := by
  unfold coreEntry at h
  cases h1 : mapLookup s1 x with
  | none => rw [h1] at h; exact absurd h (by simp)
  | some v1 =>
    cases h2 : mapLookup s2 x with
    | none => rw [h1, h2] at h; exact absurd h (by simp)
    | some v2 =>
      rw [h1, h2] at h
      dsimp only at h
      cases hr : coreResult v1 v2 with
      | panicked => rw [hr] at h; exact absurd h (by simp)
      | skipped => rw [hr] at h; exact absurd h (by simp)
      | usage u =>
        rw [hr] at h
        dsimp only at h
        by_cases hc : x = "cpu"
        · rw [if_pos hc] at h; exact absurd h (by simp)
        · rw [if_neg hc] at h
          cases h
          exact ⟨rfl, hc, v1, v2, rfl, rfl, hr⟩

lemma coreEntry_of_usage (s1 s2 : StatMap) (c : String) (v1 v2 : List ℚ) (u : ℚ)
    (h1 : mapLookup s1 c = some v1) (h2 : mapLookup s2 c = some v2)
    (hu : coreResult v1 v2 = .usage u) (hc : c ≠ "cpu") :
    coreEntry s1 s2 c = some ⟨c, u⟩ := by
  unfold coreEntry
  rw [h1, h2]
  dsimp only
  rw [hu]
  dsimp only
  rw [if_neg hc]

lemma coreResult_usage_iff (v1 v2 : List ℚ) :
    (∃ u, coreResult v1 v2 = .usage u) ↔
      4 ≤ v1.length ∧ v1.length ≤ v2.length ∧ (v2.take v1.length).sum - v1.sum ≠ 0 := by
  unfold coreResult
  by_cases hl : v2.length < v1.length
  · simp only [if_pos hl]
    constructor
    · rintro ⟨u, hu⟩; exact absurd hu (by simp)
    · rintro ⟨_, h2, _⟩; omega
  · rw [if_neg hl]
    by_cases h3 : v1.length ≤ 3
    · simp only [if_pos h3]
      constructor
      · rintro ⟨u, hu⟩; exact absurd hu (by simp)
      · rintro ⟨h4, _, _⟩; omega
    · rw [if_neg h3]
      dsimp only
      by_cases hz : (v2.take v1.length).sum - v1.sum = 0
      · simp only [if_pos hz]
        constructor
        · rintro ⟨u, hu⟩; exact absurd hu (by simp)
        · rintro ⟨_, _, hne⟩; exact absurd hz hne
      · simp only [if_neg hz]
        constructor
        · rintro ⟨u, _⟩; exact ⟨by omega, by omega, hz⟩
        · rintro ⟨_, _, _⟩; exact ⟨_, rfl⟩

lemma processCores_eq_filterMap (s1 s2 : StatMap) (order : List String)
    (h : ∀ c ∈ order, corePanics s1 s2 c = false) (tu : ℚ) (acc : List CPUStat) :
    processCores s1 s2 tu acc order =
      some (aggOf s1 s2 tu order, acc ++ order.filterMap (coreEntry s1 s2)) := by
  induction order generalizing tu acc with
  | nil => simp [processCores, aggOf]
  | cons c rest ih =>
    have hc := h c (List.mem_cons_self c rest)
    have hrest : ∀ x ∈ rest, corePanics s1 s2 x = false :=
      fun x hx => h x (List.mem_cons_of_mem c hx)
    rw [processCores_cons, aggOf_cons, List.filterMap_cons]
    unfold corePanics at hc
    cases h1 : mapLookup s1 c with
    | none =>
      have he : coreEntry s1 s2 c = none := by unfold coreEntry; rw [h1]
      rw [he]
      dsimp only
      exact ih hrest tu acc
    | some v1 =>
      cases h2 : mapLookup s2 c with
      | none =>
        have he : coreEntry s1 s2 c = none := by
          unfold coreEntry; rw [h1, h2]
        rw [he]
        dsimp only
        exact ih hrest tu acc
      | some v2 =>
        rw [h1, h2] at hc
        dsimp only at hc
        dsimp only
        cases hr : coreResult v1 v2 with
        | panicked => rw [hr] at hc; simp at hc
        | skipped =>
          have he : coreEntry s1 s2 c = none := by
            unfold coreEntry; rw [h1, h2]; dsimp only; rw [hr]
          rw [he]
          dsimp only
          exact ih hrest tu acc
        | usage u =>
          dsimp only
          by_cases hcpu : c = "cpu"
          · have he : coreEntry s1 s2 c = none := by
              unfold coreEntry; rw [h1, h2]; dsimp only; rw [hr]; dsimp only; rw [if_pos hcpu]
            rw [he, if_pos hcpu, if_pos hcpu]
            dsimp only
            exact ih hrest u acc
          · have he : coreEntry s1 s2 c = some ⟨c, u⟩ :=
              coreEntry_of_usage s1 s2 c v1 v2 u h1 h2 hr hcpu
            rw [he, if_neg hcpu, if_neg hcpu]
            dsimp only
            rw [ih hrest tu (acc ++ [CPUStat.mk c u])]
            simp

lemma processCores_some_no_panic (s1 s2 : StatMap) (order : List String) (tu : ℚ)
    (acc : List CPUStat) (p : ℚ × List CPUStat)
    (h : processCores s1 s2 tu acc order = some p) :
    ∀ c ∈ order, corePanics s1 s2 c = false := by
  induction order generalizing tu acc p with
  | nil => simp
  | cons c rest ih =>
    rw [processCores_cons] at h
    intro x hx
    cases h1 : mapLookup s1 x with
    | none => unfold corePanics; rw [h1]
    | some v1 =>
      cases h2 : mapLookup s2 x with
      | none => unfold corePanics; rw [h1, h2]
      | some v2 =>
        unfold corePanics
        rw [h1, h2]
        dsimp only
        rcases List.mem_cons.mp hx with rfl | hx'
        · rw [h1, h2] at h
          dsimp only at h
          cases hr : coreResult v1 v2 with
          | panicked => rw [hr] at h; simp at h
          | skipped => rfl
          | usage u => rfl
        · cases hl1 : mapLookup s1 c with
          | none =>
            rw [hl1] at h
            dsimp only at h
            have := ih tu acc p h x hx'
            unfold corePanics at this
            rw [h1, h2] at this
            dsimp only at this
            exact this
          | some w1 =>
            cases hl2 : mapLookup s2 c with
            | none =>
              rw [hl1, hl2] at h
              dsimp only at h
              have := ih tu acc p h x hx'
              unfold corePanics at this
              rw [h1, h2] at this
              dsimp only at this
              exact this
            | some w2 =>
              rw [hl1, hl2] at h
              dsimp only at h
              cases hr : coreResult w1 w2 with
              | panicked => rw [hr] at h; exact absurd h (by simp)
              | skipped =>
                rw [hr] at h
                dsimp only at h
                have := ih tu acc p h x hx'
                unfold corePanics at this
                rw [h1, h2] at this
                dsimp only at this
                exact this
              | usage u =>
                rw [hr] at h
                dsimp only at h
                by_cases hcpu : c = "cpu"
                · rw [if_pos hcpu] at h
                  have := ih u acc p h x hx'
                  unfold corePanics at this
                  rw [h1, h2] at this
                  dsimp only at this
                  exact this
                · rw [if_neg hcpu] at h
                  have := ih tu (acc ++ [⟨c, u⟩]) p h x hx'
                  unfold corePanics at this
                  rw [h1, h2] at this
                  dsimp only at this
                  exact this

lemma aggOf_no_cpu_mem (s1 s2 : StatMap) (order : List String)
    (h : "cpu" ∉ order) (tu : ℚ) :
    aggOf s1 s2 tu order = tu := by
  induction order generalizing tu with
  | nil => rfl
  | cons c rest ih =>
    have hc : c ≠ "cpu" := fun hc => h (hc ▸ List.mem_cons_self c rest)
    have hrest : "cpu" ∉ rest := fun hr => h (List.mem_cons_of_mem c hr)
    rw [aggOf_cons]
    cases h1 : mapLookup s1 c with
    | none => exact ih hrest tu
    | some v1 =>
      cases h2 : mapLookup s2 c with
      | none => exact ih hrest tu
      | some v2 =>
        dsimp only
        cases hr : coreResult v1 v2 with
        | panicked => exact ih hrest tu
        | skipped => exact ih hrest tu
        | usage u =>
          dsimp only
          rw [if_neg hc]
          exact ih hrest tu

lemma aggOf_cpu_usage (s1 s2 : StatMap) (order : List String)
    (hnd : order.Nodup) (hmem : "cpu" ∈ order)
    (v1 v2 : List ℚ) (u : ℚ)
    (h1 : mapLookup s1 "cpu" = some v1) (h2 : mapLookup s2 "cpu" = some v2)
    (hu : coreResult v1 v2 = .usage u) (tu : ℚ) :
    aggOf s1 s2 tu order = u := by
  induction order generalizing tu with
  | nil => simp at hmem
  | cons c rest ih =>
    rw [aggOf_cons]
    by_cases hc : c = "cpu"
    · subst hc
      rw [h1, h2]
      dsimp only
      rw [hu]
      dsimp only
      rw [if_pos rfl]
      exact aggOf_no_cpu_mem s1 s2 rest ((List.nodup_cons.mp hnd).1) u
    · have hmem' : "cpu" ∈ rest := by
        rcases List.mem_cons.mp hmem with h | h
        · exact absurd h.symm hc
        · exact h
      have hnd' : rest.Nodup := (List.nodup_cons.mp hnd).2
      cases hl1 : mapLookup s1 c with
      | none => exact ih hnd' hmem' tu
      | some w1 =>
        cases hl2 : mapLookup s2 c with
        | none => exact ih hnd' hmem' tu
        | some w2 =>
          dsimp only
          cases hr : coreResult w1 w2 with
          | panicked => exact ih hnd' hmem' tu
          | skipped => exact ih hnd' hmem' tu
          | usage w =>
            dsimp only
            rw [if_neg hc]
            exact ih hnd' hmem' tu

lemma aggOf_no_cpu_usage (s1 s2 : StatMap) (order : List String) (tu : ℚ)
    (h : ∀ v1 v2 u, mapLookup s1 "cpu" = some v1 → mapLookup s2 "cpu" = some v2 →
      coreResult v1 v2 ≠ .usage u) :
    aggOf s1 s2 tu order = tu := by
  induction order generalizing tu with
  | nil => rfl
  | cons c rest ih =>
    rw [aggOf_cons]
    cases hl1 : mapLookup s1 c with
    | none => exact ih tu
    | some w1 =>
      cases hl2 : mapLookup s2 c with
      | none => exact ih tu
      | some w2 =>
        dsimp only
        cases hr : coreResult w1 w2 with
        | panicked => exact ih tu
        | skipped => exact ih tu
        | usage w =>
          dsimp only
          by_cases hc : c = "cpu"
          · subst hc
            exact absurd hr (h w1 w2 w hl1 hl2)
          · rw [if_neg hc]
            exact ih tu

lemma sum_le_sum_pointwise (v1 : List ℚ) :
    ∀ v2 : List ℚ, v1.length = v2.length →
      (∀ i, i < v1.length → v1.getD i 0 ≤ v2.getD i 0) → v1.sum ≤ v2.sum := by
  induction v1 with
  | nil =>
    intro v2 hlen _
    cases v2 with
    | nil => simp
    | cons b bs => simp at hlen
  | cons a as ih =>
    intro v2 hlen h
    cases v2 with
    | nil => simp at hlen
    | cons b bs =>
      have h0 : a ≤ b := by simpa using h 0 (by simp)
      have hs : as.sum ≤ bs.sum := by
        refine ih bs (by simpa using hlen) ?_
        intro i hi
        simpa using h (i + 1) (by simpa using Nat.succ_lt_succ hi)
      simp only [List.sum_cons]
      linarith

lemma sum_add_entry_le (v1 : List ℚ) :
    ∀ (v2 : List ℚ) (k : Nat), v1.length = v2.length →
      (∀ i, i < v1.length → v1.getD i 0 ≤ v2.getD i 0) → k < v1.length →
      v1.sum + (v2.getD k 0 - v1.getD k 0) ≤ v2.sum := by
  induction v1 with
  | nil =>
    intro v2 k _ _ hk
    simp at hk
  | cons a as ih =>
    intro v2 k hlen h hk
    cases v2 with
    | nil => simp at hlen
    | cons b bs =>
      have h0 : a ≤ b := by simpa using h 0 (by simp)
      have hlen' : as.length = bs.length := by simpa using hlen
      have h' : ∀ i, i < as.length → as.getD i 0 ≤ bs.getD i 0 := by
        intro i hi
        simpa using h (i + 1) (by simpa using Nat.succ_lt_succ hi)
      cases k with
      | zero =>
        have hs : as.sum ≤ bs.sum := sum_le_sum_pointwise as bs hlen' h'
        simp only [List.sum_cons, List.getD_cons_zero]
        linarith
      | succ k' =>
        have hk' : k' < as.length := by simpa using hk
        have := ih bs k' hlen' h' hk'
        simp only [List.sum_cons, List.getD_cons_succ]
        linarith

/-- C6: for counter vectors of equal length at least 4 with a nonzero total
delta, the per-core body computes exactly
`(1 - idleDelta / totalDelta) * 100` with `idleDelta` the difference of
the index-3 entries and `totalDelta` the difference of the sums; for
monotonically non-decreasing counters with positive total delta this
value lies in `[0, 100]`; and on the sample pair `[100,0,100,700]`,
`[110,0,110,770]` the usage is `200/9` (≈ 22.22%). -/
theorem cpu_usage_formula_and_bounds :
    (∀ v1 v2 : List ℚ, v1.length = v2.length → 4 ≤ v1.length →
      v2.sum - v1.sum ≠ 0 →
      coreResult v1 v2 =
        .usage ((1 - (v2.getD 3 0 - v1.getD 3 0) / (v2.sum - v1.sum)) * 100))
    ∧ (∀ v1 v2 : List ℚ, v1.length = v2.length → 4 ≤ v1.length →
        (∀ i, i < v1.length → v1.getD i 0 ≤ v2.getD i 0) →
        0 < v2.sum - v1.sum →
        0 ≤ (1 - (v2.getD 3 0 - v1.getD 3 0) / (v2.sum - v1.sum)) * 100 ∧
          (1 - (v2.getD 3 0 - v1.getD 3 0) / (v2.sum - v1.sum)) * 100 ≤ 100)
    ∧ coreResult [100, 0, 100, 700] [110, 0, 110, 770] = .usage (200 / 9) := by
  refine ⟨?_, ?_, by with_unfolding_all rfl⟩
  · intro v1 v2 hlen h4 hne
    unfold coreResult
    rw [if_neg (by omega), if_neg (by omega)]
    dsimp only
    rw [hlen, List.take_length]
    rw [if_neg hne]
  · intro v1 v2 hlen h4 hmono hpos
    have h3 : (3 : Nat) < v1.length := by omega
    have hidle : 0 ≤ v2.getD 3 0 - v1.getD 3 0 := by
      have := hmono 3 h3
      linarith
    have hle : v2.getD 3 0 - v1.getD 3 0 ≤ v2.sum - v1.sum := by
      have := sum_add_entry_le v1 v2 3 hlen hmono h3
      linarith
    have hq0 : 0 ≤ (v2.getD 3 0 - v1.getD 3 0) / (v2.sum - v1.sum) :=
      div_nonneg hidle hpos.le
    have hq1 : (v2.getD 3 0 - v1.getD 3 0) / (v2.sum - v1.sum) ≤ 1 :=
      (div_le_one hpos).mpr hle
    constructor <;> nlinarith

/-- Witness for the C6 theorem at the spec's sample pair. -/
theorem cpu_usage_formula_and_bounds_witness :
    coreResult [100, 0, 100, 700] [110, 0, 110, 770] =
      .usage ((1 - (([110, 0, 110, 770] : List ℚ).getD 3 0 -
          ([100, 0, 100, 700] : List ℚ).getD 3 0) /
        (([110, 0, 110, 770] : List ℚ).sum - ([100, 0, 100, 700] : List ℚ).sum)) * 100)
    ∧ 0 ≤ (1 - (([110, 0, 110, 770] : List ℚ).getD 3 0 -
          ([100, 0, 100, 700] : List ℚ).getD 3 0) /
        (([110, 0, 110, 770] : List ℚ).sum - ([100, 0, 100, 700] : List ℚ).sum)) * 100 :=
  ⟨cpu_usage_formula_and_bounds.1 [100, 0, 100, 700] [110, 0, 110, 770] rfl
      (by norm_num) (by with_unfolding_all decide),
    (cpu_usage_formula_and_bounds.2.1 [100, 0, 100, 700] [110, 0, 110, 770] rfl
      (by norm_num) (by with_unfolding_all decide) (by with_unfolding_all decide)).1⟩

lemma getCPUStats_ok_inv (order f1 f2 : List String) (s1 s2 : StatMap)
    (tu : ℚ) (pc : List CPUStat)
    (hs1 : snapshotGo [] f1 = .ok s1) (hs2 : snapshotGo [] f2 = .ok s2)
    (hok : getCPUStats order f1 f2 = .ok tu pc) :
    tu = aggOf s1 s2 0 order ∧ pc = order.filterMap (coreEntry s1 s2) := by
  unfold getCPUStats at hok
  rw [hs1, hs2] at hok
  dsimp only at hok
  cases hp : processCores s1 s2 0 [] order with
  | none => rw [hp] at hok; simp at hok
  | some p =>
    have hnp := processCores_some_no_panic s1 s2 order 0 [] p hp
    rw [processCores_eq_filterMap s1 s2 order hnp 0 []] at hok
    dsimp only at hok
    cases hok
    exact ⟨rfl, by simp⟩

/-- C1 (amended): a core contributes an entry to `perCoreCPU` (or, for the
id `cpu`, sets `totalCPUPercent`) exactly when it is present in both
samples, reports at least 4 counters in the first sample with the second
sample reporting at least as many, and has a nonzero delta of summed
counters (the second sample's counters truncated to the first's length);
such failing cores are skipped silently — except that a core present in
both samples whose second sample reports fewer counters than its first
makes the per-core computation panic at runtime instead of being
skipped. -/
theorem cpu_core_entry_condition (order f1 f2 : List String) (s1 s2 : StatMap)
    (tu : ℚ) (pc : List CPUStat)
    (hs1 : snapshotGo [] f1 = .ok s1) (hs2 : snapshotGo [] f2 = .ok s2)
    (hperm : order.Perm (mapKeys s1)) (hnd : order.Nodup)
    (hok : getCPUStats order f1 f2 = .ok tu pc) :
    (∀ c, c ≠ "cpu" →
      ((∃ u, CPUStat.mk c u ∈ pc) ↔
        ∃ v1 v2, mapLookup s1 c = some v1 ∧ mapLookup s2 c = some v2 ∧
          4 ≤ v1.length ∧ v1.length ≤ v2.length ∧ (v2.take v1.length).sum - v1.sum ≠ 0))
    ∧ (∀ v1 v2 u, mapLookup s1 "cpu" = some v1 → mapLookup s2 "cpu" = some v2 →
        coreResult v1 v2 = .usage u → tu = u)
    ∧ ((∀ v1 v2 u, mapLookup s1 "cpu" = some v1 → mapLookup s2 "cpu" = some v2 →
        coreResult v1 v2 ≠ .usage u) → tu = 0) := by
  obtain ⟨htu, hpc⟩ := getCPUStats_ok_inv order f1 f2 s1 s2 tu pc hs1 hs2 hok
  refine ⟨?_, ?_, ?_⟩
  · intro c hc
    constructor
    · rintro ⟨u, hu⟩
      rw [hpc] at hu
      obtain ⟨x, _, hx⟩ := List.mem_filterMap.mp hu
      obtain ⟨hcore, _, v1, v2, h1, h2, hr⟩ := coreEntry_inv s1 s2 x _ hx
      have hxc : x = c := by simpa using hcore.symm
      subst hxc
      refine ⟨v1, v2, h1, h2, ?_⟩
      exact (coreResult_usage_iff v1 v2).mp ⟨_, hr⟩
    · rintro ⟨v1, v2, h1, h2, hcond⟩
      obtain ⟨u, hu⟩ := (coreResult_usage_iff v1 v2).mpr hcond
      have hmem : c ∈ order := by
        refine hperm.mem_iff.mpr ?_
        exact (mem_keys_iff_lookup s1 c).mpr ⟨v1, h1⟩
      refine ⟨u, ?_⟩
      rw [hpc]
      exact List.mem_filterMap.mpr
        ⟨c, hmem, coreEntry_of_usage s1 s2 c v1 v2 u h1 h2 hu hc⟩
  · intro v1 v2 u h1 h2 hu
    have hmem : "cpu" ∈ order :=
      hperm.mem_iff.mpr ((mem_keys_iff_lookup s1 "cpu").mpr ⟨v1, h1⟩)
    rw [htu]
    exact aggOf_cpu_usage s1 s2 order hnd hmem v1 v2 u h1 h2 hu 0
  · intro hno
    rw [htu]
    exact aggOf_no_cpu_usage s1 s2 order 0 hno

/-- C1 counterexample: core `cpu0` is present in both samples but its second
sample reports only 3 counters while the first reports 4; the claim says
it is skipped silently with the per-core computation succeeding, but the
code indexes the second sample out of range and panics. -/
theorem cpu_short_second_sample_panics :
    snapshotGo [] ["cpu0 1 2 3 4"] = .ok [("cpu0", [1, 2, 3, 4])]
    ∧ snapshotGo [] ["cpu0 1 2 3"] = .ok [("cpu0", [1, 2, 3])]
    ∧ getCPUStats ["cpu0"] ["cpu0 1 2 3 4"] ["cpu0 1 2 3"] = .panicked
    ∧ CPUResult.panicked ≠ .ok 0 [] := by
  refine ⟨by with_unfolding_all rfl, by with_unfolding_all rfl,
    by with_unfolding_all rfl, by decide⟩

/-- Witness for the amended C1 theorem on a concrete sample pair. -/
theorem cpu_core_entry_condition_witness :
    ∃ u, CPUStat.mk "cpu0" u ∈ [CPUStat.mk "cpu0" (100 : ℚ)] := by
  have h := cpu_core_entry_condition ["cpu", "cpu0"]
    ["cpu 2 2 2 2", "cpu0 1 1 1 1"] ["cpu 4 4 4 2", "cpu0 2 2 2 1"]
    [("cpu", [2, 2, 2, 2]), ("cpu0", [1, 1, 1, 1])]
    [("cpu", [4, 4, 4, 2]), ("cpu0", [2, 2, 2, 1])]
    100 [CPUStat.mk "cpu0" 100]
    (by with_unfolding_all rfl) (by with_unfolding_all rfl)
    (by with_unfolding_all exact List.Perm.refl _) (by decide)
    (by with_unfolding_all rfl)
  exact (h.1 "cpu0" (by decide)).mpr
    ⟨[1, 1, 1, 1], [2, 2, 2, 1], by with_unfolding_all rfl, by with_unfolding_all rfl,
      by norm_num, by norm_num, by with_unfolding_all decide⟩

/-- C4 (amended): the per-core sequence equals the qualifying cores filtered
out of the Go map iteration order over the first sample's keys — the
collector applies no sorting or reordering of its own, but the map
iteration order is unspecified and need not be the insertion order in
which the per-core lines appeared in the resource. -/
theorem cpu_percore_order_is_iteration_order (order f1 f2 : List String)
    (s1 s2 : StatMap) (tu : ℚ) (pc : List CPUStat)
    (hs1 : snapshotGo [] f1 = .ok s1) (hs2 : snapshotGo [] f2 = .ok s2)
    (hok : getCPUStats order f1 f2 = .ok tu pc) :
    pc = order.filterMap (coreEntry s1 s2) :=
  (getCPUStats_ok_inv order f1 f2 s1 s2 tu pc hs1 hs2 hok).2

/-- C4 counterexample: the resource lists `cpu0` before `cpu1`, yet under the
(equally legitimate) reversed map iteration order the collector returns
the `cpu1` entry first — the output is not the insertion order from
parsing. -/
theorem cpu_insertion_order_refuted :
    snapshotGo [] ["cpu0 1 1 1 1", "cpu1 2 2 2 2"]
      = .ok [("cpu0", [1, 1, 1, 1]), ("cpu1", [2, 2, 2, 2])]
    ∧ List.Perm ["cpu1", "cpu0"]
        (mapKeys [("cpu0", ([1, 1, 1, 1] : List ℚ)), ("cpu1", [2, 2, 2, 2])])
    ∧ getCPUStats ["cpu1", "cpu0"] ["cpu0 1 1 1 1", "cpu1 2 2 2 2"]
        ["cpu0 2 2 2 1", "cpu1 4 4 4 2"]
      = .ok 0 [CPUStat.mk "cpu1" 100, CPUStat.mk "cpu0" 100]
    ∧ [CPUStat.mk "cpu1" (100 : ℚ), CPUStat.mk "cpu0" 100]
      ≠ [CPUStat.mk "cpu0" (100 : ℚ), CPUStat.mk "cpu1" 100] := by
  refine ⟨by with_unfolding_all rfl, ?_, by with_unfolding_all rfl, by decide⟩
  exact List.Perm.swap "cpu0" "cpu1" []

/-- Witness for the amended C4 theorem on a concrete sample pair. -/
theorem cpu_percore_order_is_iteration_order_witness :
    [CPUStat.mk "cpu1" (100 : ℚ), CPUStat.mk "cpu0" 100] =
      List.filterMap
        (coreEntry [("cpu0", [1, 1, 1, 1]), ("cpu1", [2, 2, 2, 2])]
          [("cpu0", [2, 2, 2, 1]), ("cpu1", [4, 4, 4, 2])])
        ["cpu1", "cpu0"] :=
  cpu_percore_order_is_iteration_order ["cpu1", "cpu0"]
    ["cpu0 1 1 1 1", "cpu1 2 2 2 2"] ["cpu0 2 2 2 1", "cpu1 4 4 4 2"]
    [("cpu0", [1, 1, 1, 1]), ("cpu1", [2, 2, 2, 2])]
    [("cpu0", [2, 2, 2, 1]), ("cpu1", [4, 4, 4, 2])]
    0 [CPUStat.mk "cpu1" 100, CPUStat.mk "cpu0" 100]
    (by with_unfolding_all rfl) (by with_unfolding_all rfl) (by with_unfolding_all rfl)

lemma snapshotGo_error_on_bad (pre : List String) (bad : String) (rest : List String)
    (hpre : ∀ l ∈ pre, strStarts l "cpu" = true ∧
      (parseCounters ((goFields l).drop 1)).isSome = true)
    (hb1 : strStarts bad "cpu" = true)
    (hb2 : parseCounters ((goFields bad).drop 1) = none) :
    ∀ acc, snapshotGo acc (pre ++ bad :: rest) = .error () := by
  induction pre with
  | nil =>
    intro acc
    rw [List.nil_append, snapshotGo_cons, if_pos hb1, hb2]
  | cons l pre' ih =>
    intro acc
    have hl := hpre l (List.mem_cons_self l pre')
    have hpre' : ∀ x ∈ pre', strStarts x "cpu" = true ∧
        (parseCounters ((goFields x).drop 1)).isSome = true :=
      fun x hx => hpre x (List.mem_cons_of_mem l hx)
    rw [List.cons_append, snapshotGo_cons, if_pos hl.1]
    cases hp : parseCounters ((goFields l).drop 1) with
    | none => rfl
    | some vals =>
      dsimp only
      exact ih hpre' _

/-- C7 (amended): a non-numeric counter token on a cpu-prefixed line that the
scanner actually reaches — i.e. one inside the contiguous leading run of
cpu-prefixed lines of either snapshot — makes the CPU sub-step fail, and
any failing sub-step (memory or CPU) aborts the whole collection with the
corresponding wrapped error, never returning a partial snapshot; a
cpu-prefixed line placed after the first non-cpu line is never scanned,
so a bad token there causes no failure. -/
theorem collect_parse_error_aborts :
    (∀ mem e order f1 f2, getMemoryStats mem = .error e →
      GetSystemStats order mem f1 f2 = .err (.memoryStats e))
    ∧ (∀ mem mu order f1 f2, getMemoryStats mem = .ok mu →
        getCPUStats order f1 f2 = .parseError →
        GetSystemStats order mem f1 f2 = .err .cpuStats)
    ∧ (∀ order pre bad rest f2,
        (∀ l ∈ pre, strStarts l "cpu" = true ∧
          (parseCounters ((goFields l).drop 1)).isSome = true) →
        strStarts bad "cpu" = true → parseCounters ((goFields bad).drop 1) = none →
        getCPUStats order (pre ++ bad :: rest) f2 = .parseError)
    ∧ (∀ order f1 s1 pre bad rest, snapshotGo [] f1 = .ok s1 →
        (∀ l ∈ pre, strStarts l "cpu" = true ∧
          (parseCounters ((goFields l).drop 1)).isSome = true) →
        strStarts bad "cpu" = true → parseCounters ((goFields bad).drop 1) = none →
        getCPUStats order f1 (pre ++ bad :: rest) = .parseError) := by
  refine ⟨?_, ?_, ?_, ?_⟩
  · intro mem e order f1 f2 hm
    unfold GetSystemStats
    rw [hm]
  · intro mem mu order f1 f2 hm hc
    unfold GetSystemStats
    rw [hm, hc]
  · intro order pre bad rest f2 hpre hb1 hb2
    unfold getCPUStats
    rw [snapshotGo_error_on_bad pre bad rest hpre hb1 hb2 []]
  · intro order f1 s1 pre bad rest hs1 hpre hb1 hb2
    unfold getCPUStats
    rw [hs1, snapshotGo_error_on_bad pre bad rest hpre hb1 hb2 []]

/-- C7 counterexample: the resource `["cpu 1 1 1 1", "intr 5",
"cpu0 abc def"]` contains a cpu-prefixed line with a non-numeric counter
token, yet the collection succeeds, because scanning stopped at the first
non-cpu line before reaching it. -/
theorem cpu_unreachable_bad_line_no_error :
    strStarts "cpu0 abc def" "cpu" = true
    ∧ parseFloatQ "abc" = none
    ∧ GetSystemStats ["cpu"] ["MemTotal: 1024", "MemAvailable: 512"]
        ["cpu 1 1 1 1", "intr 5", "cpu0 abc def"] ["cpu 1 1 1 1"]
      = .ok ⟨1, 1/2, 50, 0, []⟩ := by
  refine ⟨by with_unfolding_all rfl, by with_unfolding_all rfl, by with_unfolding_all rfl⟩

/-- Witness for the amended C7 theorem on concrete resources. -/
theorem collect_parse_error_aborts_witness :
    getCPUStats ["cpu"] ["cpu aa"] ["cpu 1 1 1 1"] = .parseError
    ∧ GetSystemStats ["cpu"] ["MemTotal: 1024"] ["cpu aa"] ["cpu 1 1 1 1"]
      = .err .cpuStats := by
  have h3 := collect_parse_error_aborts.2.2.1 ["cpu"] [] "cpu aa" [] ["cpu 1 1 1 1"]
    (by simp) (by with_unfolding_all rfl) (by with_unfolding_all rfl)
  exact ⟨h3, collect_parse_error_aborts.2.1 ["MemTotal: 1024"] (1, 1) ["cpu"]
    ["cpu aa"] ["cpu 1 1 1 1"] (by with_unfolding_all rfl) h3⟩

/-- C2 evidence: a collector built from raw connection parameters has its
SSH-ownership flag set but its `sshClient` field was never assigned (it
is nil) and its SFTP-ownership flag was left false, so `Close` releases
neither client; for a caller-supplied SFTP channel `Close` correctly
releases nothing. -/
theorem close_config_collector_closes_nothing (sshDialed sftpCreated : Nat) :
    Close (NewRemoteStatsCollectorFromSSHConfig sshDialed sftpCreated) = []
    ∧ (NewRemoteStatsCollectorFromSSHConfig sshDialed sftpCreated).ownsSSHClient = true
    ∧ (NewRemoteStatsCollectorFromSSHConfig sshDialed sftpCreated).sshClient = none
    ∧ (NewRemoteStatsCollectorFromSSHConfig sshDialed sftpCreated).ownsSftpClient = false
    ∧ (NewRemoteStatsCollectorFromSSHConfig sshDialed sftpCreated).sftpClient = some sftpCreated
    ∧ Close (NewRemoteStatsCollectorFromSFTP sftpCreated) = [] :=
  ⟨rfl, rfl, rfl, rfl, rfl, rfl⟩

/-- C9: the monitor loop never returns an error; a ticker cycle — failed or
not — leaves the loop running exactly as if the cycle had not happened;
the loop exits (cleanly) precisely when the cancellation event occurs;
and a failed initial cycle does not affect `StartSync` either. -/
theorem monitor_loop_survives_failures :
    (∀ evs : List LoopEvent, StartSyncLoop evs ≠ .exited true)
    ∧ (∀ (b : Bool) (rest : List LoopEvent),
        StartSyncLoop (.tick b :: rest) = StartSyncLoop rest)
    ∧ (∀ evs : List LoopEvent, StartSyncLoop evs = .exited false ↔ LoopEvent.ctxDone ∈ evs)
    ∧ (∀ (b1 b2 : Bool) (evs : List LoopEvent), StartSync b1 evs = StartSync b2 evs) := by
  refine ⟨?_, fun b rest => rfl, ?_, fun b1 b2 evs => rfl⟩
  · intro evs
    induction evs with
    | nil => simp [StartSyncLoop]
    | cons e rest ih =>
      cases e with
      | ctxDone => simp [StartSyncLoop]
      | tick b => simpa [StartSyncLoop] using ih
  · intro evs
    induction evs with
    | nil => simp [StartSyncLoop]
    | cons e rest ih =>
      cases e with
      | ctxDone => simp [StartSyncLoop]
      | tick b => simpa [StartSyncLoop] using ih

end RemoteStats
